import Mathlib

/-!
# Schema set-up script `mongo-init.js`

The script is a straight-line sequence of thirteen shell statements.  It is
embedded as a list of statements (`script`) together with a small-step
executor (`exec`, `run`) over an explicit model of the database server.

The statements themselves are transcribed from the source file.  The server
primitives they call (collection creation, index creation, document insertion)
belong to the database and not to the repository; they are modelled from the
specification and marked as such.
-/

namespace MongoInit

/-! ## Definitions -/

/-- Scalar stored under a document field. -/
inductive Value where
  | str (s : String)
  | num (n : Int)
  | bool (b : Bool)
deriving DecidableEq, Repr

/-- Document: ordered list of field name and value. -/
abbrev Document := List (String × Value)

/-- Sort direction of one index field. -/
inductive Direction where
  | asc
  | desc
deriving DecidableEq, Repr

/-- Index as the server stores it: ordered key fields with their direction
and the two flags.  Only declared (secondary) indexes are represented. -/
structure IndexSpec where
  keys : List (String × Direction)
  unique : Bool
  sparse : Bool
deriving DecidableEq, Repr

/-- Collection: its name, its documents and its declared indexes. -/
structure Collection where
  name : String
  docs : List Document
  indexes : List IndexSpec
deriving DecidableEq, Repr

/-- Database: the list of its collections, in creation order. -/
abbrev Database := List Collection

/-- Errors a statement can raise.  Connection errors are outside the model:
the connection is assumed reachable. -/
inductive DbError where
  | constraintViolation
deriving DecidableEq, Repr

/-- Second argument of `createIndex`; a field that is not written is `none`. -/
structure IndexOptions where
  unique : Option Bool
  sparse : Option Bool
deriving DecidableEq, Repr

/-- Statements occurring in the script. -/
inductive Stmt where
  /-- Statement `db = db.getSiblingDB(name)`. -/
  | getSiblingDB (name : String)
  /-- Statement `db.createCollection(name)`. -/
  | createCollection (name : String)
  /-- Statement `db.<coll>.createIndex(keys, opts)`; a call without second
  argument has both options unset. -/
  | createIndex (coll : String) (keys : List (String × Int)) (opts : IndexOptions)
  /-- Statement `print(msg)`. -/
  | print (msg : String)
deriving DecidableEq, Repr

/-- The script `mongo-init.js`, lines 2 to 19, statement by statement. -/
def script : List Stmt :=
  [ Stmt.getSiblingDB "socialmedia",
    Stmt.createCollection "users",
    Stmt.createCollection "posts",
    Stmt.createCollection "chats",
    Stmt.createCollection "messages",
    Stmt.createIndex "users" [("username", 1)] ⟨some true, none⟩,
    Stmt.createIndex "users" [("email", 1)] ⟨some true, some true⟩,
    Stmt.createIndex "posts" [("userId", 1)] ⟨none, none⟩,
    Stmt.createIndex "posts" [("createdAt", -1)] ⟨none, none⟩,
    Stmt.createIndex "chats" [("members", 1)] ⟨none, none⟩,
    Stmt.createIndex "messages" [("chatId", 1)] ⟨none, none⟩,
    Stmt.createIndex "messages" [("createdAt", -1)] ⟨none, none⟩,
    Stmt.print "Database initialized successfully" ]

/-- Direction denoted by the number written in a key document: `1` is
ascending, `-1` is descending. -/
def direction (n : Int) : Direction :=
  if n < 0 then Direction.desc else Direction.asc

/-- Index described by the two arguments of a `createIndex` call; an option
that is not written counts as `false`. -/
def toIndexSpec (keys : List (String × Int)) (opts : IndexOptions) : IndexSpec :=
  ⟨keys.map (fun kv => (kv.1, direction kv.2)), opts.unique.getD false, opts.sparse.getD false⟩

/-- Index declaration: target collection and index. -/
structure IndexDecl where
  collection : String
  spec : IndexSpec
deriving DecidableEq, Repr

/-- Index declaration issued by a statement, if it is a `createIndex`. -/
def Stmt.indexDecl? : Stmt → Option IndexDecl
  | Stmt.createIndex coll keys opts => some ⟨coll, toIndexSpec keys opts⟩
  | _ => none

/-- Index declarations issued by a statement list, in order. -/
def indexDeclarations (stmts : List Stmt) : List IndexDecl :=
  stmts.filterMap Stmt.indexDecl?

/-- Collection a statement creates, if it is a `createCollection`. -/
def Stmt.collectionDecl? : Stmt → Option String
  | Stmt.createCollection name => some name
  | _ => none

/-- First collection of the database carrying the given name. -/
def findColl (db : Database) (name : String) : Option Collection :=
  db.find? (fun c => c.name == name)

/-- Names of the collections of a database. -/
def collectionNames (db : Database) : List String :=
  db.map Collection.name

/-- Documents of a collection; a collection that does not exist has none. -/
def docsOf (db : Database) (name : String) : List Document :=
  match findColl db name with
  | some c => c.docs
  | none => []

/-- Declared indexes of a collection; a collection that does not exist has none. -/
def indexesOf (db : Database) (name : String) : List IndexSpec :=
  match findColl db name with
  | some c => c.indexes
  | none => []

/-- Key of a document under an index: the value of each key field, `none`
where the document lacks the field. -/
def indexKey (idx : IndexSpec) (d : Document) : List (Option Value) :=
  idx.keys.map (fun kd => d.lookup kd.1)

/-- Modelled from the spec: which documents an index covers, a primitive of
the database server.  A sparse index excludes documents missing the indexed
field; any other index covers every document. -/
def covers (idx : IndexSpec) (d : Document) : Bool :=
  !idx.sparse || (indexKey idx d).any Option.isSome

/-- Keys of the documents an index covers. -/
def indexedKeys (idx : IndexSpec) (docs : List Document) : List (List (Option Value)) :=
  (docs.filter (covers idx)).map (indexKey idx)

/-- Modelled from the spec: the uniqueness constraint of the database server.
The documents conflict with an index when it is unique and two covered
documents have the same key. -/
def conflicts (idx : IndexSpec) (docs : List Document) : Bool :=
  idx.unique && !decide (indexedKeys idx docs).Nodup

/-- Modelled from the spec: collection creation, a primitive of the database
server.  An existing collection is left as it is (no error); otherwise an empty
collection without declared indexes is added. -/
def createCollection (db : Database) (name : String) : Database :=
  match findColl db name with
  | some _ => db
  | none => db ++ [⟨name, [], []⟩]

/-- Modelled from the spec: index creation, a primitive of the database
server.  An index that already exists as declared is left as it is (no error);
a unique index over conflicting documents fails with a constraint violation;
otherwise the index is added to the collection.  The spec is silent on a
collection that does not exist yet; here the call creates it, a branch the
script never reaches since lines 5 to 8 create every collection first. -/
def createIndex (db : Database) (coll : String) (idx : IndexSpec) : Except DbError Database :=
  match findColl db coll with
  | none => Except.ok (db ++ [⟨coll, [], [idx]⟩])
  | some c =>
    if idx ∈ c.indexes then Except.ok db
    else if conflicts idx c.docs then Except.error DbError.constraintViolation
    else Except.ok (db.map (fun c' =>
      if c'.name = coll then ⟨c'.name, c'.docs, c'.indexes ++ [idx]⟩ else c'))

/-- Modelled from the spec: document insertion, a primitive of the database
server, which the script never calls.  The insertion is rejected with a
constraint violation when the new document would conflict with one of the
collection's unique indexes. -/
def insertOne (db : Database) (coll : String) (d : Document) : Except DbError Database :=
  match findColl db coll with
  | none => Except.ok (db ++ [⟨coll, [d], []⟩])
  | some c =>
    if c.indexes.any (fun idx => conflicts idx (c.docs ++ [d])) then
      Except.error DbError.constraintViolation
    else Except.ok (db.map (fun c' =>
      if c'.name = coll then ⟨c'.name, c'.docs ++ [d], c'.indexes⟩ else c'))

/-- Shell state: the database the variable `db` refers to, the databases of
the server by name, and the lines printed so far. -/
structure Env where
  current : String
  server : String → Database
  output : List String

/-- Replace one database of the server. -/
def setDb (server : String → Database) (name : String) (db : Database) : String → Database :=
  fun n => if n = name then db else server n

/-- Execute one statement.  An error is an uncaught exception. -/
def exec (s : Stmt) (e : Env) : Except DbError Env :=
  match s with
  | Stmt.getSiblingDB name => Except.ok ⟨name, e.server, e.output⟩
  | Stmt.createCollection name =>
    Except.ok ⟨e.current, setDb e.server e.current (createCollection (e.server e.current) name),
      e.output⟩
  | Stmt.createIndex coll keys opts =>
    match createIndex (e.server e.current) coll (toIndexSpec keys opts) with
    | Except.ok db => Except.ok ⟨e.current, setDb e.server e.current db, e.output⟩
    | Except.error err => Except.error err
  | Stmt.print msg => Except.ok ⟨e.current, e.server, e.output ++ [msg]⟩

/-- Result of a run: the state reached, the statement that raised and its
error (if any), and the statements that were never executed. -/
structure Outcome where
  env : Env
  failure : Option (Stmt × DbError)
  skipped : List Stmt

/-- Run statements in order; the first error aborts the run. -/
def run : List Stmt → Env → Outcome
  | [], e => ⟨e, none, []⟩
  | s :: rest, e =>
    match exec s e with
    | Except.ok e2 => run rest e2
    | Except.error err => ⟨e, some (s, err), rest⟩

/-- Modelled from the spec: exit status of the shell process, zero after a
complete run and non-zero after an abort. -/
def Outcome.exitCode (o : Outcome) : Nat :=
  if o.failure.isSome then 1 else 0

/-- Server without any collection in any database. -/
def emptyServer : String → Database := fun _ => []

/-- Shell connected to an empty server; `db` initially names the default
database `test`. -/
def emptyEnv : Env := ⟨"test", emptyServer, []⟩

/-- Schema of a database: every collection name with its declared indexes. -/
def schema (db : Database) : List (String × List IndexSpec) :=
  db.map (fun c => (c.name, c.indexes))

/-- One collection grows into another: same name, same documents, and the
declared indexes are extended at the end. -/
def GrowsColl (c c' : Collection) : Prop :=
  c'.name = c.name ∧ c'.docs = c.docs ∧ ∃ added, c'.indexes = c.indexes ++ added

/-- One database grows into another: every collection is kept in place and may
gain indexes, and the collections that come after them hold no documents. -/
def Grows (db db' : Database) : Prop :=
  ∃ kept fresh, db' = kept ++ fresh ∧ List.Forall₂ GrowsColl db kept ∧ ∀ c ∈ fresh, c.docs = []

/-- Collection update performed by a successful index creation. -/
def addIndex (coll : String) (idx : IndexSpec) (c : Collection) : Collection :=
  if c.name = coll then ⟨c.name, c.docs, c.indexes ++ [idx]⟩ else c

/-- Statements that rebind the shell variable `db`. -/
def Stmt.isSwitch : Stmt → Bool
  | Stmt.getSiblingDB _ => true
  | _ => false

/-- Line a statement prints, if it is a `print`. -/
def Stmt.printed? : Stmt → Option String
  | Stmt.print msg => some msg
  | _ => none

/-- Lines a statement list prints when every statement is executed. -/
def printedLines (stmts : List Stmt) : List String :=
  stmts.filterMap Stmt.printed?

/-- What a statement has put in place once it has been executed. -/
def Stmt.established (s : Stmt) (db : Database) : Prop :=
  match s with
  | Stmt.createCollection name => name ∈ collectionNames db
  | Stmt.createIndex coll keys opts =>
    coll ∈ collectionNames db ∧ toIndexSpec keys opts ∈ indexesOf db coll
  | _ => True

/-- Collection a statement may bring into existence. -/
def Stmt.target? : Stmt → Option String
  | Stmt.createCollection name => some name
  | Stmt.createIndex coll _ _ => some coll
  | _ => none

/-- The stored documents admit every index the statements declare: each
declared index is already in place or does not conflict with the documents of
its collection. -/
def Admissible (stmts : List Stmt) (db : Database) : Prop :=
  ∀ d ∈ indexDeclarations stmts,
    d.spec ∈ indexesOf db d.collection ∨ conflicts d.spec (docsOf db d.collection) = false

/-- Unique index on `users.username` declared at line 11. -/
def usernameIndex : IndexSpec := ⟨[("username", Direction.asc)], true, false⟩

/-- Unique sparse index on `users.email` declared at line 12. -/
def emailIndex : IndexSpec := ⟨[("email", Direction.asc)], true, true⟩

/-- Shell connected to a server whose database `socialmedia` already holds a
collection `comments`. -/
def extraEnv : Env :=
  ⟨"test", setDb emptyServer "socialmedia" [⟨"comments", [], []⟩], []⟩

/-- Shell state once the first statement has selected database `socialmedia`. -/
def selected (e : Env) : Env := ⟨"socialmedia", e.server, e.output⟩

/-- Shell connected to a server on which an earlier run stopped partway:
`users` exists with its `username` index and two documents, `posts` exists
without indexes. -/
def halfwayEnv : Env :=
  ⟨"test", setDb emptyServer "socialmedia"
    [ ⟨"users", [[("username", Value.str "ann"), ("email", Value.str "ann@example.org")],
                 [("username", Value.str "bob")]], [usernameIndex]⟩,
      ⟨"posts", [], []⟩ ], []⟩

/-- Shell connected to a server whose `users` collection holds two documents
with the same username and has no declared index. -/
def duplicateEnv : Env :=
  ⟨"test", setDb emptyServer "socialmedia"
    [ ⟨"users", [[("username", Value.str "ann")], [("username", Value.str "ann")]], []⟩ ], []⟩

/-- Shell connected to a server whose `users` collection holds one document,
`zed`, without an email, and has no declared index. -/
def zedEnv : Env :=
  ⟨"test", setDb emptyServer "socialmedia"
    [ ⟨"users", [[("username", Value.str "zed")]], []⟩ ], []⟩

/-- Collection update performed by a successful insertion. -/
def addDoc (coll : String) (d : Document) (c : Collection) : Collection :=
  if c.name = coll then ⟨c.name, c.docs ++ [d], c.indexes⟩ else c

/-! ## Theorems -/

/-! ### Growth of a database -/

theorem growsColl_refl (c : Collection) : GrowsColl c c :=
  ⟨rfl, rfl, [], by simp⟩

theorem growsColl_trans {a b c : Collection} (h1 : GrowsColl a b) (h2 : GrowsColl b c) :
    GrowsColl a c := by
  obtain ⟨n1, d1, x1, i1⟩ := h1
  obtain ⟨n2, d2, x2, i2⟩ := h2
  exact ⟨n2.trans n1, d2.trans d1, x1 ++ x2, by rw [i2, i1, List.append_assoc]⟩

theorem forall₂_growsColl_refl (db : Database) : List.Forall₂ GrowsColl db db := by
  induction db with
  | nil => exact List.Forall₂.nil
  | cons c t ih => exact List.Forall₂.cons (growsColl_refl c) ih

theorem forall₂_growsColl_trans {a b c : Database} (h1 : List.Forall₂ GrowsColl a b)
    (h2 : List.Forall₂ GrowsColl b c) : List.Forall₂ GrowsColl a c := by
  induction h1 generalizing c with
  | nil => cases h2; exact List.Forall₂.nil
  | cons hab _ ih =>
    cases h2 with
    | cons hbc htl => exact List.Forall₂.cons (growsColl_trans hab hbc) (ih htl)

theorem forall₂_growsColl_split {a1 a2 b : Database} (h : List.Forall₂ GrowsColl (a1 ++ a2) b) :
    ∃ b1 b2, b = b1 ++ b2 ∧ List.Forall₂ GrowsColl a1 b1 ∧ List.Forall₂ GrowsColl a2 b2 := by
  induction a1 generalizing b with
  | nil => exact ⟨[], b, rfl, List.Forall₂.nil, h⟩
  | cons x t ih =>
    cases h with
    | cons hx ht =>
      obtain ⟨b1, b2, hb, h1, h2⟩ := ih ht
      exact ⟨_ :: b1, b2, by rw [hb]; rfl, List.Forall₂.cons hx h1, h2⟩

theorem forall₂_growsColl_mem_right {a b : Database} (h : List.Forall₂ GrowsColl a b)
    {x : Collection} (hx : x ∈ b) : ∃ y, y ∈ a ∧ GrowsColl y x := by
  induction h with
  | nil => cases hx
  | cons hab _ ih =>
    rcases List.mem_cons.mp hx with rfl | hx
    · exact ⟨_, List.mem_cons_self _ _, hab⟩
    · obtain ⟨y, hy, hg⟩ := ih hx
      exact ⟨y, List.mem_cons_of_mem _ hy, hg⟩

theorem grows_refl (db : Database) : Grows db db :=
  ⟨db, [], by simp, forall₂_growsColl_refl db, by simp⟩

theorem grows_trans {a b c : Database} (h1 : Grows a b) (h2 : Grows b c) : Grows a c := by
  obtain ⟨k1, f1, e1, r1, z1⟩ := h1
  obtain ⟨k2, f2, e2, r2, z2⟩ := h2
  subst e1
  obtain ⟨b1, b2, hb, hk, hf⟩ := forall₂_growsColl_split r2
  refine ⟨b1, b2 ++ f2, by rw [e2, hb, List.append_assoc], forall₂_growsColl_trans r1 hk, ?_⟩
  intro x hx
  rcases List.mem_append.mp hx with hx | hx
  · obtain ⟨y, hy, _, hd, _⟩ := forall₂_growsColl_mem_right hf hx
    rw [hd]; exact z1 y hy
  · exact z2 x hx

/-! ### Collection lookup -/

theorem findColl_cons (c : Collection) (t : Database) (m : String) :
    findColl (c :: t) m = if c.name = m then some c else findColl t m := by
  unfold findColl
  rw [List.find?_cons]
  by_cases h : c.name = m
  · simp [h]
  · have hb : (c.name == m) = false := by simpa using h
    simp [h, hb]

theorem findColl_append (a b : Database) (m : String) :
    findColl (a ++ b) m = (findColl a m).or (findColl b m) := by
  unfold findColl
  exact List.find?_append

theorem findColl_name {db : Database} {m : String} {c : Collection}
    (h : findColl db m = some c) : c.name = m := by
  unfold findColl at h
  have := List.find?_some h
  simpa using this

theorem findColl_mem {db : Database} {m : String} {c : Collection}
    (h : findColl db m = some c) : c ∈ db :=
  List.mem_of_find?_eq_some h

theorem findColl_isSome_iff (db : Database) (m : String) :
    (findColl db m).isSome ↔ m ∈ collectionNames db := by
  unfold findColl collectionNames
  rw [List.find?_isSome]
  simp only [List.mem_map, beq_iff_eq]

theorem findColl_eq_none_iff (db : Database) (m : String) :
    findColl db m = none ↔ m ∉ collectionNames db := by
  rw [← findColl_isSome_iff]
  cases findColl db m <;> simp

theorem findColl_forall₂ {a b : Database} (h : List.Forall₂ GrowsColl a b) (m : String) :
    (∀ c, findColl a m = some c → ∃ c', findColl b m = some c' ∧ GrowsColl c c') ∧
    (findColl a m = none → findColl b m = none) := by
  induction h with
  | nil => exact ⟨fun c hc => by simp [findColl] at hc, fun _ => rfl⟩
  | @cons x y t u hxy _ ih =>
    rw [findColl_cons, findColl_cons, hxy.1]
    by_cases hn : x.name = m
    · simp only [hn, if_true]
      exact ⟨fun c hc => ⟨y, rfl, by cases hc; exact hxy⟩, fun hc => by cases hc⟩
    · simp only [hn, if_false]
      exact ih

theorem Grows.findColl {db db' : Database} (h : Grows db db') {m : String} {c : Collection}
    (hc : findColl db m = some c) : ∃ c', findColl db' m = some c' ∧ GrowsColl c c' := by
  obtain ⟨kept, fresh, rfl, hk, _⟩ := h
  obtain ⟨c', hc', hg⟩ := (findColl_forall₂ hk m).1 c hc
  exact ⟨c', by rw [findColl_append, hc']; rfl, hg⟩

theorem Grows.docsOf {db db' : Database} (h : Grows db db') (m : String) :
    docsOf db' m = docsOf db m := by
  obtain ⟨kept, fresh, rfl, hk, hz⟩ := h
  unfold MongoInit.docsOf
  rw [findColl_append]
  cases hc : MongoInit.findColl db m with
  | some c =>
    obtain ⟨c', hc', hg⟩ := (findColl_forall₂ hk m).1 c hc
    rw [hc']
    exact hg.2.1
  | none =>
    rw [(findColl_forall₂ hk m).2 hc]
    cases hf : MongoInit.findColl fresh m with
    | none => rfl
    | some c => exact hz c (findColl_mem hf)

theorem Grows.indexesOf {db db' : Database} (h : Grows db db') (m : String) (idx : IndexSpec)
    (hi : idx ∈ indexesOf db m) : idx ∈ indexesOf db' m := by
  unfold MongoInit.indexesOf at hi ⊢
  cases hc : MongoInit.findColl db m with
  | none => rw [hc] at hi; cases hi
  | some c =>
    rw [hc] at hi
    obtain ⟨c', hc', _, _, added, ha⟩ := h.findColl hc
    rw [hc']
    show idx ∈ c'.indexes
    rw [ha]
    exact List.mem_append_left _ hi

theorem Grows.names {db db' : Database} (h : Grows db db') (m : String)
    (hm : m ∈ collectionNames db) : m ∈ collectionNames db' := by
  rw [← findColl_isSome_iff] at hm ⊢
  cases hc : MongoInit.findColl db m with
  | none => rw [hc] at hm; cases hm
  | some c =>
    obtain ⟨c', hc', _⟩ := h.findColl hc
    rw [hc']; rfl

/-! ### Effect of the server primitives -/

theorem addIndex_name (coll : String) (idx : IndexSpec) (c : Collection) :
    (addIndex coll idx c).name = c.name := by
  unfold addIndex; split <;> rfl

theorem addIndex_grows (coll : String) (idx : IndexSpec) (c : Collection) :
    GrowsColl c (addIndex coll idx c) := by
  unfold addIndex
  split
  · exact ⟨rfl, rfl, [idx], rfl⟩
  · exact growsColl_refl c

theorem findColl_map_addIndex (db : Database) (coll : String) (idx : IndexSpec) (m : String) :
    findColl (db.map (addIndex coll idx)) m = (findColl db m).map (addIndex coll idx) := by
  induction db with
  | nil => rfl
  | cons c t ih =>
    rw [List.map_cons, findColl_cons, findColl_cons, addIndex_name, ih]
    split <;> rfl

theorem grows_map_addIndex (db : Database) (coll : String) (idx : IndexSpec) :
    Grows db (db.map (addIndex coll idx)) := by
  refine ⟨db.map (addIndex coll idx), [], by simp, ?_, by simp⟩
  induction db with
  | nil => exact List.Forall₂.nil
  | cons c t ih => exact List.Forall₂.cons (addIndex_grows coll idx c) ih

theorem grows_append_empty (db : Database) (c : Collection) (hc : c.docs = []) :
    Grows db (db ++ [c]) :=
  ⟨db, [c], rfl, forall₂_growsColl_refl db, by simpa using hc⟩

theorem grows_createCollection (db : Database) (name : String) :
    Grows db (createCollection db name) := by
  unfold createCollection
  split
  · exact grows_refl db
  · exact grows_append_empty db _ rfl

theorem createCollection_noop {db : Database} {name : String} {c : Collection}
    (h : findColl db name = some c) : createCollection db name = db := by
  unfold createCollection; rw [h]

theorem names_createCollection (db : Database) (name m : String) :
    m ∈ collectionNames (createCollection db name) ↔ m ∈ collectionNames db ∨ m = name := by
  unfold createCollection
  split
  · rename_i c hc
    constructor
    · exact Or.inl
    · rintro (h | rfl)
      · exact h
      · rw [← findColl_isSome_iff, hc]; rfl
  · simp [collectionNames]

theorem createIndex_eq (db : Database) (coll : String) (idx : IndexSpec) :
    createIndex db coll idx =
      match findColl db coll with
      | none => Except.ok (db ++ [⟨coll, [], [idx]⟩])
      | some c =>
        if idx ∈ c.indexes then Except.ok db
        else if conflicts idx c.docs then Except.error DbError.constraintViolation
        else Except.ok (db.map (addIndex coll idx)) := rfl

theorem createIndex_noop {db : Database} {coll : String} {idx : IndexSpec} {c : Collection}
    (h : findColl db coll = some c) (hi : idx ∈ c.indexes) :
    createIndex db coll idx = Except.ok db := by
  rw [createIndex_eq, h]; simp [hi]

theorem conflicts_nil (idx : IndexSpec) : conflicts idx [] = false := by
  simp [conflicts, indexedKeys]

theorem createIndex_ok_of {db : Database} {coll : String} {idx : IndexSpec}
    (h : idx ∈ indexesOf db coll ∨ conflicts idx (docsOf db coll) = false) :
    ∃ db', createIndex db coll idx = Except.ok db' := by
  rw [createIndex_eq]
  unfold indexesOf docsOf at h
  cases hc : findColl db coll with
  | none => exact ⟨_, rfl⟩
  | some c =>
    rw [hc] at h
    by_cases hi : idx ∈ c.indexes
    · exact ⟨db, by simp [hi]⟩
    · rcases h with h | h
      · exact absurd h hi
      · have h' : conflicts idx c.docs = false := h
        exact ⟨db.map (addIndex coll idx), by simp [hi, h']⟩

theorem createIndex_error_of {db : Database} {coll : String} {idx : IndexSpec}
    (hi : idx ∉ indexesOf db coll) (hx : conflicts idx (docsOf db coll) = true) :
    createIndex db coll idx = Except.error DbError.constraintViolation := by
  rw [createIndex_eq]
  unfold indexesOf docsOf at *
  cases hc : findColl db coll with
  | none => rw [hc] at hx; simp [conflicts_nil] at hx
  | some c =>
    rw [hc] at hi hx
    simp [hi, hx]

theorem grows_createIndex {db db' : Database} {coll : String} {idx : IndexSpec}
    (h : createIndex db coll idx = Except.ok db') : Grows db db' := by
  rw [createIndex_eq] at h
  cases hc : findColl db coll with
  | none =>
    rw [hc] at h
    cases h
    exact grows_append_empty db _ rfl
  | some c =>
    rw [hc] at h
    by_cases hi : idx ∈ c.indexes
    · simp [hi] at h; cases h; exact grows_refl db
    · by_cases hx : conflicts idx c.docs = true
      · simp [hi, hx] at h
      · simp [hi, hx] at h
        cases h
        exact grows_map_addIndex db coll idx

theorem names_createIndex {db db' : Database} {coll : String} {idx : IndexSpec}
    (h : createIndex db coll idx = Except.ok db') (m : String) :
    m ∈ collectionNames db' ↔ m ∈ collectionNames db ∨ m = coll := by
  rw [createIndex_eq] at h
  cases hc : findColl db coll with
  | none =>
    rw [hc] at h
    cases h
    simp [collectionNames]
  | some c =>
    have hmem : coll ∈ collectionNames db := by rw [← findColl_isSome_iff, hc]; rfl
    rw [hc] at h
    by_cases hi : idx ∈ c.indexes
    · simp [hi] at h; cases h
      exact ⟨Or.inl, fun h => h.elim id (fun e => e ▸ hmem)⟩
    · by_cases hx : conflicts idx c.docs = true
      · simp [hi, hx] at h
      · simp [hi, hx] at h
        cases h
        have : collectionNames (db.map (addIndex coll idx)) = collectionNames db := by
          unfold collectionNames
          rw [List.map_map]
          apply List.map_congr_left
          intro a _
          exact addIndex_name coll idx a
        rw [this]
        exact ⟨Or.inl, fun h => h.elim id (fun e => e ▸ hmem)⟩

theorem indexesOf_createCollection (db : Database) (name m : String) :
    indexesOf (createCollection db name) m = indexesOf db m := by
  unfold createCollection
  split
  · rfl
  · unfold indexesOf
    rw [findColl_append]
    cases hc : findColl db m with
    | some c => rfl
    | none =>
      rw [findColl_cons]
      by_cases hn : name = m
      · simp [hn]
      · simp [hn, findColl]

theorem indexesOf_createIndex_self {db db' : Database} {coll : String} {idx : IndexSpec}
    (h : createIndex db coll idx = Except.ok db') : idx ∈ indexesOf db' coll := by
  rw [createIndex_eq] at h
  unfold indexesOf
  cases hc : findColl db coll with
  | none =>
    rw [hc] at h
    cases h
    rw [findColl_append, hc, findColl_cons]
    simp
  | some c =>
    rw [hc] at h
    by_cases hi : idx ∈ c.indexes
    · simp [hi] at h; cases h; rw [hc]; exact hi
    · by_cases hx : conflicts idx c.docs = true
      · simp [hi, hx] at h
      · simp [hi, hx] at h
        cases h
        rw [findColl_map_addIndex, hc]
        simp [addIndex, findColl_name hc]

theorem indexesOf_createIndex_sub {db db' : Database} {coll : String} {idx : IndexSpec}
    (h : createIndex db coll idx = Except.ok db') (m : String) (i : IndexSpec)
    (hi : i ∈ indexesOf db' m) : i ∈ indexesOf db m ∨ (m = coll ∧ i = idx) := by
  rw [createIndex_eq] at h
  unfold indexesOf at hi ⊢
  cases hc : findColl db coll with
  | none =>
    rw [hc] at h
    cases h
    rw [findColl_append] at hi
    cases hm : findColl db m with
    | some c => rw [hm] at hi; exact Or.inl hi
    | none =>
      rw [hm, findColl_cons] at hi
      by_cases hn : coll = m
      · simp [hn] at hi; exact Or.inr ⟨hn.symm, hi⟩
      · simp [hn, findColl] at hi
  | some c =>
    rw [hc] at h
    by_cases hmem : idx ∈ c.indexes
    · simp [hmem] at h; cases h; exact Or.inl hi
    · by_cases hx : conflicts idx c.docs = true
      · simp [hmem, hx] at h
      · simp [hmem, hx] at h
        cases h
        rw [findColl_map_addIndex] at hi
        cases hm : findColl db m with
        | none => rw [hm] at hi; cases hi
        | some c2 =>
          rw [hm] at hi
          simp only [Option.map_some'] at hi
          unfold addIndex at hi
          by_cases hn : c2.name = coll
          · simp [hn] at hi
            rcases hi with hi | hi
            · exact Or.inl hi
            · exact Or.inr ⟨(findColl_name hm).symm.trans hn, hi⟩
          · simp [hn] at hi
            exact Or.inl hi

/-! ### Execution of statements -/

theorem setDb_same (server : String → Database) (name : String) (db : Database) :
    setDb server name db name = db := by
  simp [setDb]

theorem setDb_other (server : String → Database) (name : String) (db : Database) {n : String}
    (h : n ≠ name) : setDb server name db n = server n := by
  simp [setDb, h]

theorem run_nil (e : Env) : run [] e = ⟨e, none, []⟩ := rfl

theorem run_cons_ok {s : Stmt} {e e2 : Env} (rest : List Stmt) (h : exec s e = Except.ok e2) :
    run (s :: rest) e = run rest e2 := by
  simp [run, h]

theorem run_cons_error {s : Stmt} {e : Env} {err : DbError} (rest : List Stmt)
    (h : exec s e = Except.error err) : run (s :: rest) e = ⟨e, some (s, err), rest⟩ := by
  simp [run, h]

theorem exec_createIndex_ok {coll : String} {keys : List (String × Int)} {opts : IndexOptions}
    {e : Env} {db : Database}
    (h : createIndex (e.server e.current) coll (toIndexSpec keys opts) = Except.ok db) :
    exec (Stmt.createIndex coll keys opts) e
      = Except.ok ⟨e.current, setDb e.server e.current db, e.output⟩ := by
  simp [exec, h]

theorem exec_createIndex_error {coll : String} {keys : List (String × Int)} {opts : IndexOptions}
    {e : Env} {err : DbError}
    (h : createIndex (e.server e.current) coll (toIndexSpec keys opts) = Except.error err) :
    exec (Stmt.createIndex coll keys opts) e = Except.error err := by
  simp [exec, h]

theorem exec_createIndex_inv {coll : String} {keys : List (String × Int)} {opts : IndexOptions}
    {e e2 : Env} (h : exec (Stmt.createIndex coll keys opts) e = Except.ok e2) :
    ∃ db, createIndex (e.server e.current) coll (toIndexSpec keys opts) = Except.ok db ∧
      e2 = ⟨e.current, setDb e.server e.current db, e.output⟩ := by
  cases hc : createIndex (e.server e.current) coll (toIndexSpec keys opts) with
  | error err => simp [exec, hc] at h
  | ok db =>
    simp only [exec, hc] at h
    cases h
    exact ⟨db, rfl, rfl⟩

/-- Every statement only grows every database. -/
theorem exec_grows {s : Stmt} {e e2 : Env} (h : exec s e = Except.ok e2) (n : String) :
    Grows (e.server n) (e2.server n) := by
  cases s with
  | getSiblingDB name => cases h; exact grows_refl _
  | print msg => cases h; exact grows_refl _
  | createCollection name =>
    cases h
    by_cases hn : n = e.current
    · subst hn; dsimp only; rw [setDb_same]; exact grows_createCollection _ _
    · dsimp only; rw [setDb_other _ _ _ hn]; exact grows_refl _
  | createIndex coll keys opts =>
    obtain ⟨db, hdb, rfl⟩ := exec_createIndex_inv h
    by_cases hn : n = e.current
    · subst hn; dsimp only; rw [setDb_same]; exact grows_createIndex hdb
    · dsimp only; rw [setDb_other _ _ _ hn]; exact grows_refl _

/-- A statement that does not rebind `db` touches the current database only. -/
theorem exec_scope {s : Stmt} {e e2 : Env} (hs : s.isSwitch = false)
    (h : exec s e = Except.ok e2) :
    e2.current = e.current ∧ ∀ n, n ≠ e.current → e2.server n = e.server n := by
  cases s with
  | getSiblingDB name => cases hs
  | print msg => cases h; exact ⟨rfl, fun _ _ => rfl⟩
  | createCollection name =>
    cases h
    exact ⟨rfl, fun n hn => setDb_other _ _ _ hn⟩
  | createIndex coll keys opts =>
    obtain ⟨db, _, rfl⟩ := exec_createIndex_inv h
    exact ⟨rfl, fun n hn => setDb_other _ _ _ hn⟩

theorem run_grows (stmts : List Stmt) (e : Env) (n : String) :
    Grows (e.server n) ((run stmts e).env.server n) := by
  induction stmts generalizing e with
  | nil => exact grows_refl _
  | cons s rest ih =>
    cases h : exec s e with
    | error err => rw [run_cons_error rest h]; exact grows_refl _
    | ok e2 => rw [run_cons_ok rest h]; exact grows_trans (exec_grows h n) (ih e2)

theorem run_scope (stmts : List Stmt) (hs : ∀ s ∈ stmts, Stmt.isSwitch s = false) (e : Env) :
    (run stmts e).env.current = e.current ∧
      ∀ n, n ≠ e.current → (run stmts e).env.server n = e.server n := by
  induction stmts generalizing e with
  | nil => exact ⟨rfl, fun _ _ => rfl⟩
  | cons s rest ih =>
    have hrest : ∀ s ∈ rest, Stmt.isSwitch s = false :=
      fun x hx => hs x (List.mem_cons_of_mem _ hx)
    cases h : exec s e with
    | error err => rw [run_cons_error rest h]; exact ⟨rfl, fun _ _ => rfl⟩
    | ok e2 =>
      rw [run_cons_ok rest h]
      obtain ⟨hc, hf⟩ := exec_scope (hs s (List.mem_cons_self _ _)) h
      obtain ⟨hc2, hf2⟩ := ih hrest e2
      refine ⟨hc2.trans hc, fun n hn => ?_⟩
      rw [hf2 n (by rw [hc]; exact hn), hf n hn]

theorem Admissible.grows {stmts : List Stmt} {db db' : Database} (hg : Grows db db')
    (h : Admissible stmts db) : Admissible stmts db' := by
  intro d hd
  rcases h d hd with hi | hx
  · exact Or.inl (hg.indexesOf _ _ hi)
  · exact Or.inr (by rw [hg.docsOf]; exact hx)

theorem Admissible.tail {s : Stmt} {rest : List Stmt} {db : Database}
    (h : Admissible (s :: rest) db) : Admissible rest db := by
  intro d hd
  apply h d
  unfold indexDeclarations at hd ⊢
  rw [List.filterMap_cons]
  split
  · exact hd
  · exact List.mem_cons_of_mem _ hd

theorem exec_ok_of_admissible {s : Stmt} {rest : List Stmt} {e : Env}
    (h : Admissible (s :: rest) (e.server e.current)) : ∃ e2, exec s e = Except.ok e2 := by
  cases s with
  | getSiblingDB name => exact ⟨_, rfl⟩
  | print msg => exact ⟨_, rfl⟩
  | createCollection name => exact ⟨_, rfl⟩
  | createIndex coll keys opts =>
    have hd : (⟨coll, toIndexSpec keys opts⟩ : IndexDecl) ∈
        indexDeclarations (Stmt.createIndex coll keys opts :: rest) := by
      simp [indexDeclarations, Stmt.indexDecl?]
    obtain ⟨db, hdb⟩ := createIndex_ok_of (h _ hd)
    exact ⟨_, exec_createIndex_ok hdb⟩

theorem exec_output {s : Stmt} {e e2 : Env} (h : exec s e = Except.ok e2) :
    e2.output = e.output ++ printedLines [s] := by
  cases s with
  | getSiblingDB name => cases h; simp [printedLines, Stmt.printed?]
  | print msg => cases h; simp [printedLines, Stmt.printed?]
  | createCollection name => cases h; simp [printedLines, Stmt.printed?]
  | createIndex coll keys opts =>
    obtain ⟨db, _, rfl⟩ := exec_createIndex_inv h
    simp [printedLines, Stmt.printed?]

theorem printedLines_cons (s : Stmt) (rest : List Stmt) :
    printedLines (s :: rest) = printedLines [s] ++ printedLines rest := by
  unfold printedLines
  rw [← List.filterMap_append]
  rfl

/-- Success criterion: statements that do not rebind `db` all succeed when the
current database admits their index declarations. -/
theorem run_ok (stmts : List Stmt) (hs : ∀ s ∈ stmts, Stmt.isSwitch s = false) (e : Env)
    (h : Admissible stmts (e.server e.current)) :
    (run stmts e).failure = none ∧ (run stmts e).skipped = [] ∧
      (run stmts e).env.output = e.output ++ printedLines stmts := by
  induction stmts generalizing e with
  | nil => exact ⟨rfl, rfl, by simp [run, printedLines]⟩
  | cons s rest ih =>
    obtain ⟨e2, he2⟩ := exec_ok_of_admissible h
    obtain ⟨hc, _⟩ := exec_scope (hs s (List.mem_cons_self _ _)) he2
    have hadm : Admissible rest (e2.server e2.current) := by
      rw [hc]
      exact (h.tail).grows (exec_grows he2 _)
    obtain ⟨h1, h2, h3⟩ := ih (fun x hx => hs x (List.mem_cons_of_mem _ hx)) e2 hadm
    rw [run_cons_ok rest he2]
    refine ⟨h1, h2, ?_⟩
    rw [h3, exec_output he2, printedLines_cons s rest, List.append_assoc]

theorem Stmt.established_mono {s : Stmt} {db db' : Database} (hg : Grows db db')
    (h : s.established db) : s.established db' := by
  cases s with
  | getSiblingDB name => trivial
  | print msg => trivial
  | createCollection name => exact hg.names _ h
  | createIndex coll keys opts => exact ⟨hg.names _ h.1, hg.indexesOf _ _ h.2⟩

theorem exec_established {s : Stmt} {e e2 : Env} (h : exec s e = Except.ok e2) :
    s.established (e2.server e.current) := by
  cases s with
  | getSiblingDB name => trivial
  | print msg => trivial
  | createCollection name =>
    cases h
    show name ∈ collectionNames (setDb _ _ _ _)
    rw [setDb_same, names_createCollection]
    exact Or.inr rfl
  | createIndex coll keys opts =>
    obtain ⟨db, hdb, rfl⟩ := exec_createIndex_inv h
    show coll ∈ collectionNames (setDb _ _ _ _) ∧ _ ∈ indexesOf (setDb _ _ _ _) coll
    rw [setDb_same]
    exact ⟨(names_createIndex hdb coll).2 (Or.inr rfl), indexesOf_createIndex_self hdb⟩

/-- After a complete run every statement has left in place what it declares. -/
theorem run_established (stmts : List Stmt) (hs : ∀ s ∈ stmts, Stmt.isSwitch s = false)
    (e : Env) (h : (run stmts e).failure = none) :
    ∀ s ∈ stmts, Stmt.established s ((run stmts e).env.server e.current) := by
  induction stmts generalizing e with
  | nil => intro s hs; cases hs
  | cons s rest ih =>
    cases hx : exec s e with
    | error err => rw [run_cons_error rest hx] at h; cases h
    | ok e2 =>
      rw [run_cons_ok rest hx] at h ⊢
      obtain ⟨hc, _⟩ := exec_scope (hs s (List.mem_cons_self _ _)) hx
      intro x hmem
      rcases List.mem_cons.mp hmem with rfl | hmem
      · exact Stmt.established_mono (run_grows rest e2 _) (exec_established hx)
      · rw [← hc]
        exact ih (fun y hy => hs y (List.mem_cons_of_mem _ hy)) e2 h x hmem

/-- Collections after a run were there before or are targets of the statements. -/
theorem run_names_sub (stmts : List Stmt) (hs : ∀ s ∈ stmts, Stmt.isSwitch s = false)
    (e : Env) (m : String)
    (hm : m ∈ collectionNames ((run stmts e).env.server e.current)) :
    m ∈ collectionNames (e.server e.current) ∨ m ∈ stmts.filterMap Stmt.target? := by
  induction stmts generalizing e with
  | nil => exact Or.inl hm
  | cons s rest ih =>
    cases hx : exec s e with
    | error err => rw [run_cons_error rest hx] at hm; exact Or.inl hm
    | ok e2 =>
      rw [run_cons_ok rest hx] at hm
      obtain ⟨hc, _⟩ := exec_scope (hs s (List.mem_cons_self _ _)) hx
      rw [← hc] at hm
      have hstep : m ∈ collectionNames (e2.server e2.current) →
          m ∈ collectionNames (e.server e.current) ∨ m ∈ [s].filterMap Stmt.target? := by
        intro h2
        cases s with
        | getSiblingDB name =>
          exact absurd (hs _ (List.mem_cons_self _ _)) (by simp [Stmt.isSwitch])
        | print msg => cases hx; exact Or.inl h2
        | createCollection name =>
          cases hx
          dsimp only at h2
          rw [setDb_same, names_createCollection] at h2
          exact h2.imp id (fun h => by simp [Stmt.target?, h])
        | createIndex coll keys opts =>
          obtain ⟨db, hdb, rfl⟩ := exec_createIndex_inv hx
          dsimp only at h2
          rw [setDb_same, names_createIndex hdb] at h2
          exact h2.imp id (fun h => by simp [Stmt.target?, h])
      rcases ih (fun y hy => hs y (List.mem_cons_of_mem _ hy)) e2 hm with h2 | h2
      · rcases hstep h2 with h3 | h3
        · exact Or.inl h3
        · right
          have : s :: rest = [s] ++ rest := rfl
          rw [this, List.filterMap_append]
          exact List.mem_append_left _ h3
      · right
        have : s :: rest = [s] ++ rest := rfl
        rw [this, List.filterMap_append]
        exact List.mem_append_right _ h2

/-- Indexes after a run were there before or are declared by the statements. -/
theorem run_indexes_sub (stmts : List Stmt) (hs : ∀ s ∈ stmts, Stmt.isSwitch s = false)
    (e : Env) (m : String) (i : IndexSpec)
    (hi : i ∈ indexesOf ((run stmts e).env.server e.current) m) :
    i ∈ indexesOf (e.server e.current) m ∨ (⟨m, i⟩ : IndexDecl) ∈ indexDeclarations stmts := by
  induction stmts generalizing e with
  | nil => exact Or.inl hi
  | cons s rest ih =>
    cases hx : exec s e with
    | error err => rw [run_cons_error rest hx] at hi; exact Or.inl hi
    | ok e2 =>
      rw [run_cons_ok rest hx] at hi
      obtain ⟨hc, _⟩ := exec_scope (hs s (List.mem_cons_self _ _)) hx
      rw [← hc] at hi
      have hstep : i ∈ indexesOf (e2.server e2.current) m →
          i ∈ indexesOf (e.server e.current) m ∨ (⟨m, i⟩ : IndexDecl) ∈ indexDeclarations [s] := by
        intro h2
        cases s with
        | getSiblingDB name =>
          exact absurd (hs _ (List.mem_cons_self _ _)) (by simp [Stmt.isSwitch])
        | print msg => cases hx; exact Or.inl h2
        | createCollection name =>
          cases hx
          dsimp only at h2
          rw [setDb_same, indexesOf_createCollection] at h2
          exact Or.inl h2
        | createIndex coll keys opts =>
          obtain ⟨db, hdb, rfl⟩ := exec_createIndex_inv hx
          dsimp only at h2
          rw [setDb_same] at h2
          rcases indexesOf_createIndex_sub hdb m i h2 with h3 | ⟨h3, h4⟩
          · exact Or.inl h3
          · exact Or.inr (by simp [indexDeclarations, Stmt.indexDecl?, h3, h4])
      have happ : indexDeclarations (s :: rest) = indexDeclarations [s] ++ indexDeclarations rest := by
        unfold indexDeclarations
        rw [← List.filterMap_append]
        rfl
      rw [happ]
      rcases ih (fun y hy => hs y (List.mem_cons_of_mem _ hy)) e2 hi with h2 | h2
      · rcases hstep h2 with h3 | h3
        · exact Or.inl h3
        · exact Or.inr (List.mem_append_left _ h3)
      · exact Or.inr (List.mem_append_right _ h2)

/-! ### The script on concrete databases -/

/-- C1: the index declarations issued by the script are, row for row, the seven
rows (users, username asc, unique), (users, email asc, unique, sparse),
(posts, userId asc), (posts, createdAt desc), (chats, members asc),
(messages, chatId asc), (messages, createdAt desc), an option that is not written
counting as false; a key field is descending exactly when it is `createdAt`. -/
theorem index_declarations_eq_table :
    indexDeclarations script =
      [ ⟨"users", ⟨[("username", Direction.asc)], true, false⟩⟩,
        ⟨"users", ⟨[("email", Direction.asc)], true, true⟩⟩,
        ⟨"posts", ⟨[("userId", Direction.asc)], false, false⟩⟩,
        ⟨"posts", ⟨[("createdAt", Direction.desc)], false, false⟩⟩,
        ⟨"chats", ⟨[("members", Direction.asc)], false, false⟩⟩,
        ⟨"messages", ⟨[("chatId", Direction.asc)], false, false⟩⟩,
        ⟨"messages", ⟨[("createdAt", Direction.desc)], false, false⟩⟩ ] ∧
    (∀ d ∈ indexDeclarations script, ∀ k ∈ d.spec.keys,
      (k.1 = "createdAt" → k.2 = Direction.desc) ∧ (k.1 ≠ "createdAt" → k.2 = Direction.asc)) := by
  decide

/-- C10 (as stated, refuted): the script does not make nine index declarations. -/
theorem index_declaration_count_ne_nine : (indexDeclarations script).length ≠ 9 := by
  decide

/-- C10 (amended): the script makes seven index declarations in total, all
distinct. -/
theorem index_declaration_count :
    (indexDeclarations script).length = 7 ∧ (indexDeclarations script).Nodup := by
  decide

/-- C3: on an empty database the run completes with exit status zero and leaves
exactly the four collections with seven declared indexes, two on users, two on
posts, one on chats and two on messages; the output is the single line
`Database initialized successfully`, and the statement printing it is the last
one: before it nothing has been printed and the schema is already final. -/
theorem run_on_empty_database :
    script.filterMap Stmt.collectionDecl? = ["users", "posts", "chats", "messages"] ∧
    (run script emptyEnv).failure = none ∧
    (run script emptyEnv).skipped = [] ∧
    (run script emptyEnv).exitCode = 0 ∧
    collectionNames ((run script emptyEnv).env.server "socialmedia")
      = ["users", "posts", "chats", "messages"] ∧
    (collectionNames ((run script emptyEnv).env.server "socialmedia")).length = 4 ∧
    (((run script emptyEnv).env.server "socialmedia").map (fun c => c.indexes.length)).sum = 7 ∧
    (indexesOf ((run script emptyEnv).env.server "socialmedia") "users").length = 2 ∧
    (indexesOf ((run script emptyEnv).env.server "socialmedia") "posts").length = 2 ∧
    (indexesOf ((run script emptyEnv).env.server "socialmedia") "chats").length = 1 ∧
    (indexesOf ((run script emptyEnv).env.server "socialmedia") "messages").length = 2 ∧
    (((run script emptyEnv).env.server "socialmedia").flatMap
        (fun c => c.indexes.map (fun i => (⟨c.name, i⟩ : IndexDecl)))).Perm
      (indexDeclarations script) ∧
    (run script emptyEnv).env.output = ["Database initialized successfully"] ∧
    script = script.dropLast ++ [Stmt.print "Database initialized successfully"] ∧
    printedLines script.dropLast = [] ∧
    (run script.dropLast emptyEnv).failure = none ∧
    (run script.dropLast emptyEnv).env.output = [] ∧
    (run script.dropLast emptyEnv).env.server "socialmedia"
      = (run script emptyEnv).env.server "socialmedia" := by
  decide

/-- C4: from an empty database two runs in succession both complete, and the
second leaves database `socialmedia` exactly as the first left it: same
collections, same indexes with the same keys, directions and flags. -/
theorem run_twice_on_empty_database :
    (run script emptyEnv).failure = none ∧
    (run script (run script emptyEnv).env).failure = none ∧
    (run script (run script emptyEnv).env).env.server "socialmedia"
      = (run script emptyEnv).env.server "socialmedia" ∧
    schema ((run script (run script emptyEnv).env).env.server "socialmedia")
      = schema ((run script emptyEnv).env.server "socialmedia") := by
  decide

/-- C2 (as stated, refuted): from a database that already holds a collection
`comments` the run completes, and afterwards the collections are not exactly
the four. -/
theorem collections_not_exactly_four :
    (run script extraEnv).failure = none ∧
    ¬ (∀ n, n ∈ collectionNames ((run script extraEnv).env.server "socialmedia")
        ↔ n ∈ ["users", "posts", "chats", "messages"]) := by
  refine ⟨by decide, fun h => ?_⟩
  have h1 : "comments" ∈ collectionNames ((run script extraEnv).env.server "socialmedia") := by
    decide
  have h2 : "comments" ∉ ["users", "posts", "chats", "messages"] := by decide
  exact h2 ((h "comments").1 h1)

/-- C8: a run that stopped after any number of the eleven creation steps on an
empty database leaves a state from which the full script completes and yields
database `socialmedia` exactly as one full run on an empty database does. -/
theorem rerun_after_aborted_run (k : Nat) (hk : k ≤ 11) :
    (run (script.take (k + 1)) emptyEnv).failure = none ∧
    (run script (run (script.take (k + 1)) emptyEnv).env).failure = none ∧
    (run script (run (script.take (k + 1)) emptyEnv).env).env.server "socialmedia"
      = (run script emptyEnv).env.server "socialmedia" ∧
    schema ((run script (run (script.take (k + 1)) emptyEnv).env).env.server "socialmedia")
      = schema ((run script emptyEnv).env.server "socialmedia") := by
  interval_cases k <;> decide

/-- Instance with six creation steps done before the abort. -/
theorem rerun_after_aborted_run_witness :
    (run (script.take (6 + 1)) emptyEnv).failure = none ∧
    (run script (run (script.take (6 + 1)) emptyEnv).env).failure = none ∧
    (run script (run (script.take (6 + 1)) emptyEnv).env).env.server "socialmedia"
      = (run script emptyEnv).env.server "socialmedia" ∧
    schema ((run script (run (script.take (6 + 1)) emptyEnv).env).env.server "socialmedia")
      = schema ((run script emptyEnv).env.server "socialmedia") :=
  rerun_after_aborted_run 6 (by decide)

/-! ### The script on arbitrary databases -/

theorem run_script_eq (e : Env) : run script e = run script.tail (selected e) := rfl

theorem script_tail_noSwitch : ∀ s ∈ script.tail, Stmt.isSwitch s = false := by
  decide

/-- C2 (amended): after a complete run the collections of database
`socialmedia` are exactly those present before the run together with users,
posts, chats and messages. -/
theorem collections_after_run (e : Env) (h : (run script e).failure = none) (n : String) :
    n ∈ collectionNames ((run script e).env.server "socialmedia") ↔
      n ∈ collectionNames (e.server "socialmedia") ∨ n ∈ ["users", "posts", "chats", "messages"] := by
  rw [run_script_eq] at h ⊢
  constructor
  · intro hn
    rcases run_names_sub script.tail script_tail_noSwitch (selected e) n hn with h1 | h1
    · exact Or.inl h1
    · right
      have hsub : ∀ x ∈ script.tail.filterMap Stmt.target?,
          x ∈ ["users", "posts", "chats", "messages"] := by decide
      exact hsub n h1
  · rintro (h1 | h1)
    · exact (run_grows script.tail (selected e) "socialmedia").names n h1
    · have hest := run_established script.tail script_tail_noSwitch (selected e) h
      simp only [List.mem_cons, List.mem_singleton, List.not_mem_nil, or_false] at h1
      rcases h1 with rfl | rfl | rfl | rfl
      · exact hest (Stmt.createCollection "users") (by decide)
      · exact hest (Stmt.createCollection "posts") (by decide)
      · exact hest (Stmt.createCollection "chats") (by decide)
      · exact hest (Stmt.createCollection "messages") (by decide)

/-- Instance on a database that already holds a collection `comments`. -/
theorem collections_after_run_witness :
    (run script extraEnv).failure = none ∧
    ("comments" ∈ collectionNames ((run script extraEnv).env.server "socialmedia") ↔
      "comments" ∈ collectionNames (extraEnv.server "socialmedia") ∨
        "comments" ∈ ["users", "posts", "chats", "messages"]) :=
  ⟨by decide, collections_after_run extraEnv (by decide) "comments"⟩

/-- C9: for every initial state, also when the run aborts, no database other
than `socialmedia` is changed, and in `socialmedia` every collection stays in
place with its name and its documents, keeps every index it had (new ones are
appended), and the collections added hold no documents. -/
theorem run_only_adds (e : Env) :
    (∀ n, n ≠ "socialmedia" → (run script e).env.server n = e.server n) ∧
    Grows (e.server "socialmedia") ((run script e).env.server "socialmedia") ∧
    (∀ m, docsOf ((run script e).env.server "socialmedia") m = docsOf (e.server "socialmedia") m) ∧
    (∀ m c, findColl (e.server "socialmedia") m = some c →
      ∃ c', findColl ((run script e).env.server "socialmedia") m = some c' ∧
        c'.name = c.name ∧ c'.docs = c.docs ∧ ∀ i ∈ c.indexes, i ∈ c'.indexes) := by
  have hg := run_grows script e "socialmedia"
  refine ⟨?_, hg, hg.docsOf, ?_⟩
  · rw [run_script_eq]
    exact (run_scope script.tail script_tail_noSwitch (selected e)).2
  · intro m c hc
    obtain ⟨c', hc', hn, hd, added, ha⟩ := hg.findColl hc
    exact ⟨c', hc', hn, hd, fun i hi => by rw [ha]; exact List.mem_append_left _ hi⟩

/-- In a complete run every statement returns normally. -/
theorem run_step_ok (pre : List Stmt) (s : Stmt) (post : List Stmt) (e : Env)
    (h : (run (pre ++ s :: post) e).failure = none) :
    ∃ e2, exec s (run pre e).env = Except.ok e2 := by
  induction pre generalizing e with
  | nil =>
    cases hx : exec s e with
    | ok e2 => exact ⟨e2, by simpa [run] using hx⟩
    | error err =>
      rw [List.nil_append, run_cons_error post hx] at h
      cases h
  | cons x rest ih =>
    cases hx : exec x e with
    | ok e2 =>
      rw [List.cons_append, run_cons_ok _ hx] at h
      rw [run_cons_ok _ hx]
      exact ih e2 h
    | error err =>
      rw [List.cons_append, run_cons_error _ hx] at h
      cases h

theorem admissible_script_tail {db : Database}
    (hu : conflicts usernameIndex (docsOf db "users") = false)
    (he : conflicts emailIndex (docsOf db "users") = false) :
    Admissible script.tail db := by
  intro d hd
  have hrows : indexDeclarations script.tail =
      [ ⟨"users", usernameIndex⟩, ⟨"users", emailIndex⟩,
        ⟨"posts", ⟨[("userId", Direction.asc)], false, false⟩⟩,
        ⟨"posts", ⟨[("createdAt", Direction.desc)], false, false⟩⟩,
        ⟨"chats", ⟨[("members", Direction.asc)], false, false⟩⟩,
        ⟨"messages", ⟨[("chatId", Direction.asc)], false, false⟩⟩,
        ⟨"messages", ⟨[("createdAt", Direction.desc)], false, false⟩⟩ ] := by decide
  rw [hrows] at hd
  simp only [List.mem_cons, List.mem_singleton, List.not_mem_nil, or_false] at hd
  rcases hd with rfl | rfl | rfl | rfl | rfl | rfl | rfl
  · exact Or.inr hu
  · exact Or.inr he
  all_goals exact Or.inr rfl

/-- C7: an existing collection or index is not an error.  Creating a collection
that exists, or an index that exists as declared, returns normally and leaves
the database as it is; and from every initial state whose `users` documents
conflict with neither unique index, whatever part of the schema is already in
place, every statement of the script returns normally, the run completes with
exit status zero, and the confirmation line is printed. -/
theorem existing_schema_is_no_error (e : Env)
    (hu : conflicts usernameIndex (docsOf (e.server "socialmedia") "users") = false)
    (he : conflicts emailIndex (docsOf (e.server "socialmedia") "users") = false) :
    (∀ (db : Database) (name : String) (c : Collection),
      findColl db name = some c → createCollection db name = db) ∧
    (∀ (db : Database) (coll : String) (idx : IndexSpec) (c : Collection),
      findColl db coll = some c → idx ∈ c.indexes → createIndex db coll idx = Except.ok db) ∧
    (∀ pre s post, script = pre ++ s :: post → ∃ e2, exec s (run pre e).env = Except.ok e2) ∧
    (run script e).failure = none ∧
    (run script e).skipped = [] ∧
    (run script e).exitCode = 0 ∧
    (run script e).env.output = e.output ++ ["Database initialized successfully"] := by
  have hok := run_ok script.tail script_tail_noSwitch (selected e)
    (admissible_script_tail hu he)
  rw [← run_script_eq] at hok
  obtain ⟨h1, h2, h3⟩ := hok
  refine ⟨fun db name c hc => createCollection_noop hc,
    fun db coll idx c hc hi => createIndex_noop hc hi, ?_, h1, h2, ?_, ?_⟩
  · intro pre s post hsplit
    apply run_step_ok pre s post e
    rw [← hsplit]
    exact h1
  · simp [Outcome.exitCode, h1]
  · rw [h3]
    rfl

/-- Instance on a database where part of the schema and two users are in place. -/
theorem existing_schema_is_no_error_witness :
    conflicts usernameIndex (docsOf (halfwayEnv.server "socialmedia") "users") = false ∧
    conflicts emailIndex (docsOf (halfwayEnv.server "socialmedia") "users") = false ∧
    (run script halfwayEnv).failure = none ∧
    (run script halfwayEnv).env.output = halfwayEnv.output ++ ["Database initialized successfully"] :=
  ⟨by decide, by decide,
    (existing_schema_is_no_error halfwayEnv (by decide) (by decide)).2.2.2.1,
    (existing_schema_is_no_error halfwayEnv (by decide) (by decide)).2.2.2.2.2.2⟩

theorem run_append {pre : List Stmt} (post : List Stmt) {e : Env}
    (h : (run pre e).failure = none) : run (pre ++ post) e = run post (run pre e).env := by
  induction pre generalizing e with
  | nil => rfl
  | cons x rest ih =>
    cases hx : exec x e with
    | ok e2 =>
      rw [run_cons_ok _ hx] at h
      rw [List.cons_append, run_cons_ok _ hx, run_cons_ok _ hx]
      exact ih h
    | error err =>
      rw [run_cons_error _ hx] at h
      cases h

theorem indexedKeys_usernameIndex (docs : List Document) :
    indexedKeys usernameIndex docs = docs.map (indexKey usernameIndex) := by
  unfold indexedKeys
  have hall : List.filter (covers usernameIndex) docs = docs :=
    List.filter_eq_self.mpr (fun _ _ => rfl)
  rw [hall]

/-- Two stored documents with the same username conflict with the unique
`username` index. -/
theorem conflicts_usernameIndex_of_dup {docs : List Document} {d1 d2 : Document} {u : Value}
    (hd : List.Sublist [d1, d2] docs)
    (h1 : d1.lookup "username" = some u) (h2 : d2.lookup "username" = some u) :
    conflicts usernameIndex docs = true := by
  have hsub : List.Sublist [[some u], [some u]] (indexedKeys usernameIndex docs) := by
    rw [indexedKeys_usernameIndex]
    have := hd.map (indexKey usernameIndex)
    simpa [indexKey, usernameIndex, h1, h2] using this
  have hnd : ¬ (indexedKeys usernameIndex docs).Nodup := by
    intro hn
    have := hn.sublist hsub
    simp at this
  unfold conflicts
  rw [decide_eq_false hnd]
  rfl

/-- C6: when collection `users` holds two documents with the same username (and
the stored documents respect the indexes already in place), the run aborts at
the `username` index creation with a constraint violation: the six later index
creations and the print are never executed, nothing is printed, and the exit
status is non-zero. -/
theorem duplicate_usernames_abort (e : Env) (c : Collection) (d1 d2 : Document) (u : Value)
    (hc : findColl (e.server "socialmedia") "users" = some c)
    (hd : List.Sublist [d1, d2] c.docs)
    (h1 : d1.lookup "username" = some u) (h2 : d2.lookup "username" = some u)
    (hcons : ∀ idx ∈ c.indexes, conflicts idx c.docs = false) :
    (run script e).failure
      = some (Stmt.createIndex "users" [("username", 1)] ⟨some true, none⟩,
          DbError.constraintViolation) ∧
    (run script e).skipped
      = [ Stmt.createIndex "users" [("email", 1)] ⟨some true, some true⟩,
          Stmt.createIndex "posts" [("userId", 1)] ⟨none, none⟩,
          Stmt.createIndex "posts" [("createdAt", -1)] ⟨none, none⟩,
          Stmt.createIndex "chats" [("members", 1)] ⟨none, none⟩,
          Stmt.createIndex "messages" [("chatId", 1)] ⟨none, none⟩,
          Stmt.createIndex "messages" [("createdAt", -1)] ⟨none, none⟩,
          Stmt.print "Database initialized successfully" ] ∧
    (run script e).skipped = script.drop 6 ∧
    (run script e).env.output = e.output ∧
    (run script e).exitCode ≠ 0 := by
  have hconf : conflicts usernameIndex c.docs = true := conflicts_usernameIndex_of_dup hd h1 h2
  have hnot : usernameIndex ∉ c.indexes := by
    intro hi
    rw [hcons _ hi] at hconf
    cases hconf
  -- the four collection creations
  have hpre : ∀ s ∈ script.tail.take 4, Stmt.isSwitch s = false := by decide
  have hadm : Admissible (script.tail.take 4) ((selected e).server (selected e).current) := by
    intro d hdm
    have : indexDeclarations (script.tail.take 4) = [] := by decide
    rw [this] at hdm
    cases hdm
  obtain ⟨hf, _, hout⟩ := run_ok (script.tail.take 4) hpre (selected e) hadm
  obtain ⟨hcur, _⟩ := run_scope (script.tail.take 4) hpre (selected e)
  have hgrow := run_grows (script.tail.take 4) (selected e) "socialmedia"
  have hsplit : script.tail = script.tail.take 4 ++ script.tail.drop 4 := by decide
  have hrun : run script e = run (script.tail.drop 4) (run (script.tail.take 4) (selected e)).env := by
    rw [run_script_eq, ← run_append _ hf, ← hsplit]
  -- the index creation
  have hidx : usernameIndex ∉
      indexesOf ((run (script.tail.take 4) (selected e)).env.server "socialmedia") "users" := by
    intro hi
    rcases run_indexes_sub (script.tail.take 4) hpre (selected e) "users" usernameIndex hi
      with h3 | h3
    · have : indexesOf (e.server "socialmedia") "users" = c.indexes := by
        unfold indexesOf; rw [hc]
      exact hnot (this ▸ h3)
    · have : indexDeclarations (script.tail.take 4) = [] := by decide
      rw [this] at h3
      cases h3
  have hdocs : docsOf ((run (script.tail.take 4) (selected e)).env.server "socialmedia") "users"
      = c.docs := by
    rw [hgrow.docsOf]
    show docsOf (e.server "socialmedia") "users" = c.docs
    unfold docsOf; rw [hc]
  have herr : exec (Stmt.createIndex "users" [("username", 1)] ⟨some true, none⟩)
      (run (script.tail.take 4) (selected e)).env = Except.error DbError.constraintViolation := by
    apply exec_createIndex_error
    rw [hcur]
    have hce := createIndex_error_of hidx (by rw [hdocs]; exact hconf)
    exact hce
  have hdrop : script.tail.drop 4 =
      Stmt.createIndex "users" [("username", 1)] ⟨some true, none⟩ :: script.drop 6 := by decide
  rw [hrun, hdrop, run_cons_error _ herr]
  refine ⟨rfl, rfl, rfl, ?_, by simp [Outcome.exitCode]⟩
  show (run (script.tail.take 4) (selected e)).env.output = e.output
  have hnone : printedLines (script.tail.take 4) = [] := by decide
  rw [hout, hnone, List.append_nil]
  rfl

/-- Instance on a database whose `users` collection holds two documents named `ann`. -/
theorem duplicate_usernames_abort_witness :
    (run script duplicateEnv).failure
      = some (Stmt.createIndex "users" [("username", 1)] ⟨some true, none⟩,
          DbError.constraintViolation) ∧
    (run script duplicateEnv).env.output = [] ∧
    (run script duplicateEnv).exitCode ≠ 0 :=
  have h := duplicate_usernames_abort duplicateEnv
    ⟨"users", [[("username", Value.str "ann")], [("username", Value.str "ann")]], []⟩
    [("username", Value.str "ann")] [("username", Value.str "ann")] (Value.str "ann")
    (by decide) (List.Sublist.refl _) (by decide) (by decide) (by decide)
  ⟨h.1, h.2.2.2.1, h.2.2.2.2⟩

/-! ### Insertion into users after a run -/

theorem addDoc_name (coll : String) (d : Document) (c : Collection) :
    (addDoc coll d c).name = c.name := by
  unfold addDoc; split <;> rfl

theorem findColl_map_addDoc (db : Database) (coll : String) (d : Document) (m : String) :
    findColl (db.map (addDoc coll d)) m = (findColl db m).map (addDoc coll d) := by
  induction db with
  | nil => rfl
  | cons c t ih =>
    rw [List.map_cons, findColl_cons, findColl_cons, addDoc_name, ih]
    split <;> rfl

theorem insertOne_eq (db : Database) (coll : String) (d : Document) :
    insertOne db coll d =
      match findColl db coll with
      | none => Except.ok (db ++ [⟨coll, [d], []⟩])
      | some c =>
        if c.indexes.any (fun idx => conflicts idx (c.docs ++ [d])) then
          Except.error DbError.constraintViolation
        else Except.ok (db.map (addDoc coll d)) := rfl

/-- An insertion into an existing collection succeeds exactly when the new
document conflicts with none of its indexes, and then appends the document. -/
theorem insertOne_ok_iff {db : Database} {coll : String} {d : Document} {c : Collection}
    (hc : findColl db coll = some c) (db1 : Database) :
    insertOne db coll d = Except.ok db1 ↔
      (∀ idx ∈ c.indexes, conflicts idx (c.docs ++ [d]) = false) ∧
        db1 = db.map (addDoc coll d) := by
  rw [insertOne_eq, hc]
  by_cases hany : c.indexes.any (fun idx => conflicts idx (c.docs ++ [d])) = true
  · simp only [hany, if_true]
    constructor
    · intro h; cases h
    · rintro ⟨h, _⟩
      rw [List.any_eq_true] at hany
      obtain ⟨idx, hi, hx⟩ := hany
      rw [h idx hi] at hx
      cases hx
  · simp only [hany]
    have hall : ∀ idx ∈ c.indexes, conflicts idx (c.docs ++ [d]) = false := by
      intro idx hi
      cases hx : conflicts idx (c.docs ++ [d]) with
      | false => rfl
      | true => exact absurd (List.any_eq_true.mpr ⟨idx, hi, hx⟩) hany
    constructor
    · intro h
      simp only [Bool.false_eq_true, if_false, Except.ok.injEq] at h
      exact ⟨hall, h.symm⟩
    · rintro ⟨_, rfl⟩
      simp

theorem insertOne_error_of {db : Database} {coll : String} {d : Document} {c : Collection}
    (hc : findColl db coll = some c) {idx : IndexSpec} (hi : idx ∈ c.indexes)
    (hx : conflicts idx (c.docs ++ [d]) = true) :
    insertOne db coll d = Except.error DbError.constraintViolation := by
  rw [insertOne_eq, hc]
  have hany : c.indexes.any (fun idx => conflicts idx (c.docs ++ [d])) = true :=
    List.any_eq_true.mpr ⟨idx, hi, hx⟩
  simp [hany]

theorem findColl_after_insert {db : Database} {coll : String} {d : Document} {c : Collection}
    (hc : findColl db coll = some c) :
    findColl (db.map (addDoc coll d)) coll = some ⟨c.name, c.docs ++ [d], c.indexes⟩ := by
  rw [findColl_map_addDoc, hc]
  simp [addDoc, findColl_name hc]

theorem conflicts_single (idx : IndexSpec) (d : Document) : conflicts idx [d] = false := by
  unfold conflicts indexedKeys
  have hn : ((List.filter (covers idx) [d]).map (indexKey idx)).Nodup := by
    by_cases hcov : covers idx d = true
    · simp [List.filter, hcov]
    · simp [List.filter, hcov]
  simp [hn]

theorem covers_emailIndex_of_missing {d : Document} (h : d.lookup "email" = none) :
    covers emailIndex d = false := by
  simp [covers, emailIndex, indexKey, h]

/-- A document without `email` is not constrained by the sparse `email` index. -/
theorem conflicts_emailIndex_append_missing (docs : List Document) {d : Document}
    (h : d.lookup "email" = none) :
    conflicts emailIndex (docs ++ [d]) = conflicts emailIndex docs := by
  unfold conflicts indexedKeys
  rw [List.filter_append]
  simp [List.filter, covers_emailIndex_of_missing h]

theorem conflicts_emailIndex_pair {d1 d2 : Document}
    (h : d1.lookup "email" = none ∨ d2.lookup "email" = none) :
    conflicts emailIndex [d1, d2] = false := by
  rcases h with h | h
  · unfold conflicts indexedKeys
    have hn : ((List.filter (covers emailIndex) [d1, d2]).map (indexKey emailIndex)).Nodup := by
      by_cases hcov : covers emailIndex d2 = true
      · simp [List.filter, covers_emailIndex_of_missing h, hcov]
      · simp [List.filter, covers_emailIndex_of_missing h, hcov]
    simp [hn]
  · have := conflicts_emailIndex_append_missing [d1] h
    rw [show [d1] ++ [d2] = [d1, d2] from rfl] at this
    rw [this]
    exact conflicts_single emailIndex d1

theorem users_after_run (e : Env) (hrun : (run script e).failure = none) :
    ∃ c, findColl ((run script e).env.server "socialmedia") "users" = some c ∧
      usernameIndex ∈ c.indexes ∧ emailIndex ∈ c.indexes ∧
      c.docs = docsOf (e.server "socialmedia") "users" ∧
      ∀ i ∈ c.indexes, i ∈ indexesOf (e.server "socialmedia") "users" ∨
        i = usernameIndex ∨ i = emailIndex := by
  have hrun' := hrun
  rw [run_script_eq] at hrun'
  have hest := run_established script.tail script_tail_noSwitch (selected e) hrun'
  have hu := hest (Stmt.createIndex "users" [("username", 1)] ⟨some true, none⟩) (by decide)
  have hm := hest (Stmt.createIndex "users" [("email", 1)] ⟨some true, some true⟩) (by decide)
  rw [← run_script_eq] at hu hm
  have hdocs := (run_grows script e "socialmedia").docsOf "users"
  have hsub := run_indexes_sub script.tail script_tail_noSwitch (selected e) "users"
  rw [← run_script_eq] at hsub
  cases hc : findColl ((run script e).env.server "socialmedia") "users" with
  | none =>
    have := hu.1
    rw [← findColl_isSome_iff] at this
    change (findColl ((run script e).env.server "socialmedia") "users").isSome = true at this
    rw [hc] at this
    cases this
  | some c =>
    have hidx : indexesOf ((run script e).env.server "socialmedia") "users" = c.indexes := by
      unfold indexesOf; rw [hc]
    have hd : docsOf ((run script e).env.server "socialmedia") "users" = c.docs := by
      unfold docsOf; rw [hc]
    refine ⟨c, rfl, ?_, ?_, ?_, ?_⟩
    · have := hu.2
      change toIndexSpec _ _ ∈ indexesOf ((run script e).env.server "socialmedia") "users" at this
      rw [hidx] at this
      exact this
    · have := hm.2
      change toIndexSpec _ _ ∈ indexesOf ((run script e).env.server "socialmedia") "users" at this
      rw [hidx] at this
      exact this
    · rw [← hd, hdocs]
    · intro i hi
      have hi' : i ∈ indexesOf ((run script e).env.server (selected e).current) "users" := by
        change i ∈ indexesOf ((run script e).env.server "socialmedia") "users"
        rw [hidx]; exact hi
      rcases hsub i hi' with h1 | h1
      · exact Or.inl h1
      · right
        have hdecl : ∀ d ∈ indexDeclarations script.tail, d.collection = "users" →
            d.spec = usernameIndex ∨ d.spec = emailIndex := by decide
        exact hdecl _ h1 rfl

theorem indexedKeys_append (idx : IndexSpec) (a b : List Document) :
    indexedKeys idx (a ++ b) = indexedKeys idx a ++ indexedKeys idx b := by
  unfold indexedKeys
  rw [List.filter_append, List.map_append]

theorem nodup_append_three {α : Type} {a b c : List α} (hab : (a ++ b).Nodup)
    (hac : (a ++ c).Nodup) (hbc : (b ++ c).Nodup) : (a ++ (b ++ c)).Nodup := by
  rw [List.nodup_append] at hab hac ⊢
  exact ⟨hab.1, hbc, List.disjoint_append_right.mpr ⟨hab.2.2, hac.2.2⟩⟩

/-- Two documents that each fit next to the stored ones and do not conflict
with each other fit together. -/
theorem conflicts_append_pair {idx : IndexSpec} {docs : List Document} {d1 d2 : Document}
    (h1 : conflicts idx (docs ++ [d1]) = false) (h2 : conflicts idx (docs ++ [d2]) = false)
    (h12 : conflicts idx [d1, d2] = false) :
    conflicts idx (docs ++ [d1, d2]) = false := by
  unfold conflicts at h1 h2 h12 ⊢
  cases hu : idx.unique with
  | false => rfl
  | true =>
    rw [hu] at h1 h2 h12
    simp only [Bool.true_and, Bool.not_eq_false', decide_eq_true_eq] at h1 h2 h12
    rw [indexedKeys_append] at h1 h2
    have hpair : [d1, d2] = [d1] ++ [d2] := rfl
    rw [hpair, indexedKeys_append] at h12
    have hn : (indexedKeys idx (docs ++ ([d1] ++ [d2]))).Nodup := by
      rw [indexedKeys_append, indexedKeys_append]
      exact nodup_append_three h1 h2 h12
    have hn' : (indexedKeys idx (docs ++ [d1, d2])).Nodup := hn
    simp [hn']

/-- Were the `email` index not sparse, two documents without `email` would
conflict with it. -/
theorem conflicts_dense_email_of_missing (docs : List Document) {d1 d2 : Document}
    (h1 : d1.lookup "email" = none) (h2 : d2.lookup "email" = none) :
    conflicts ⟨[("email", Direction.asc)], true, false⟩ (docs ++ [d1, d2]) = true := by
  have hall : ∀ l : List Document,
      indexedKeys ⟨[("email", Direction.asc)], true, false⟩ l
        = l.map (indexKey ⟨[("email", Direction.asc)], true, false⟩) := by
    intro l
    unfold indexedKeys
    have hf : List.filter (covers ⟨[("email", Direction.asc)], true, false⟩) l = l :=
      List.filter_eq_self.mpr (fun _ _ => rfl)
    rw [hf]
  have hnd : ¬ (indexedKeys ⟨[("email", Direction.asc)], true, false⟩ (docs ++ [d1, d2])).Nodup := by
    intro hn
    rw [indexedKeys_append, List.nodup_append] at hn
    have hp := hn.2.1
    rw [hall] at hp
    simp [indexKey, h1, h2] at hp
  unfold conflicts
  rw [decide_eq_false hnd]
  rfl

/-- C5: after a complete run, collection `users` carries the unique `username`
index and the unique sparse `email` index.  Of two documents with the same
username the second insertion is rejected with a constraint violation.  A
document without `email` is never in conflict with the `email` index, so two
documents of which one omits `email` are both inserted whenever each can be
inserted on its own and no index other than the `email` index sets them
against each other (for the `username` index: their usernames differ); a
unique index on `email` that is not sparse would reject two documents that
both omit it. -/
theorem users_uniqueness_enforced (e : Env) (hrun : (run script e).failure = none)
    (d1 d2 : Document) :
    (usernameIndex ∈ indexesOf ((run script e).env.server "socialmedia") "users" ∧
      usernameIndex.unique = true ∧ usernameIndex.sparse = false) ∧
    (emailIndex ∈ indexesOf ((run script e).env.server "socialmedia") "users" ∧
      emailIndex.unique = true ∧ emailIndex.sparse = true) ∧
    (∀ u db1, d1.lookup "username" = some u → d2.lookup "username" = some u →
      insertOne ((run script e).env.server "socialmedia") "users" d1 = Except.ok db1 →
      insertOne db1 "users" d2 = Except.error DbError.constraintViolation) ∧
    (d2.lookup "email" = none →
      ∀ docs, conflicts emailIndex (docs ++ [d2]) = conflicts emailIndex docs) ∧
    ((d1.lookup "email" = none ∨ d2.lookup "email" = none) →
      (∃ a, insertOne ((run script e).env.server "socialmedia") "users" d1 = Except.ok a) →
      (∃ b, insertOne ((run script e).env.server "socialmedia") "users" d2 = Except.ok b) →
      (∀ idx ∈ indexesOf ((run script e).env.server "socialmedia") "users",
        idx ≠ emailIndex → conflicts idx [d1, d2] = false) →
      ∃ db1 db2,
        insertOne ((run script e).env.server "socialmedia") "users" d1 = Except.ok db1 ∧
        insertOne db1 "users" d2 = Except.ok db2) ∧
    (d1.lookup "email" = none → d2.lookup "email" = none →
      ∀ docs, conflicts ⟨[("email", Direction.asc)], true, false⟩ (docs ++ [d1, d2]) = true) := by
  obtain ⟨c, hc, hcu, hce, _, _⟩ := users_after_run e hrun
  have hidx : indexesOf ((run script e).env.server "socialmedia") "users" = c.indexes := by
    unfold indexesOf; rw [hc]
  refine ⟨⟨hidx ▸ hcu, rfl, rfl⟩, ⟨hidx ▸ hce, rfl, rfl⟩, ?_, ?_, ?_, ?_⟩
  · intro u db1 h1 h2 hins
    obtain ⟨_, rfl⟩ := (insertOne_ok_iff hc db1).1 hins
    apply insertOne_error_of (findColl_after_insert hc) hcu
    apply conflicts_usernameIndex_of_dup _ h1 h2
    show List.Sublist [d1, d2] ((c.docs ++ [d1]) ++ [d2])
    rw [List.append_assoc]
    exact List.sublist_append_right _ _
  · intro h docs
    exact conflicts_emailIndex_append_missing docs h
  · rintro hmail ⟨a, ha⟩ ⟨b, hb⟩ hother
    have h1 := ((insertOne_ok_iff hc a).1 ha).1
    have h2 := ((insertOne_ok_iff hc b).1 hb).1
    refine ⟨_, ((((run script e).env.server "socialmedia").map (addDoc "users" d1)).map
      (addDoc "users" d2)), (insertOne_ok_iff hc _).2 ⟨h1, rfl⟩, ?_⟩
    rw [insertOne_ok_iff (findColl_after_insert hc)]
    refine ⟨fun idx hi => ?_, rfl⟩
    show conflicts idx ((c.docs ++ [d1]) ++ [d2]) = false
    rw [List.append_assoc]
    apply conflicts_append_pair (h1 idx hi) (h2 idx hi)
    by_cases hm : idx = emailIndex
    · rw [hm]; exact conflicts_emailIndex_pair hmail
    · exact hother idx (hidx ▸ hi) hm
  · intro h1 h2 docs
    exact conflicts_dense_email_of_missing docs h1 h2

/-- Instance on a database whose `users` collection already holds `zed`, who
has no email: `ann` with an email and `bob` without one are both inserted. -/
theorem users_uniqueness_enforced_witness :
    (run script zedEnv).failure = none ∧
    (∃ db1 db2,
      insertOne ((run script zedEnv).env.server "socialmedia") "users"
        [("username", Value.str "ann"), ("email", Value.str "ann@example.org")] = Except.ok db1 ∧
      insertOne db1 "users" [("username", Value.str "bob")] = Except.ok db2) :=
  ⟨by decide,
    (users_uniqueness_enforced zedEnv (by decide)
      [("username", Value.str "ann"), ("email", Value.str "ann@example.org")]
      [("username", Value.str "bob")]).2.2.2.2.1 (Or.inr rfl) ⟨_, rfl⟩ ⟨_, rfl⟩ (by decide)⟩

end MongoInit
